import Mathlib

/-!
Verification of the account-lifecycle and transaction-execution core of the
`workspaces-js` test harness (`src/account/account-manager.ts`,
`src/runtime/runtime.ts`), as a shallow embedding.

Key stores, the on-chain account table and the `accountsCreated` tracking
table are modelled as association lists from string ids; the asynchronous
submission of a signed transaction is modelled by an `Except` parameter
supplied by the environment (the RPC collaborator); randomness is modelled
by explicit seeds threaded as parameters.
-/

/-- Key material.  The manager never inspects keys, it only stores, compares
and moves them, so a single abstract field suffices. -/
structure KeyPair where
  secret : Nat
deriving DecidableEq, Repr

/-- Lookup in an association list keyed by string ids (the model of the key
store, of the chain's account/balance table and of the JS `Map` used for
`accountsCreated`): the value at the first matching key. -/
def alGet {β : Type} : List (String × β) → String → Option β
  | [], _ => none
  | a :: t, k => if a.1 == k then some a.2 else alGet t k

/-- Insert-or-update, as a JS `Map.set`: updates the value in place when the
key is present, appends at the end otherwise. -/
def alUpsert {β : Type} : List (String × β) → String → β → List (String × β)
  | [], k, v => [(k, v)]
  | a :: t, k, v => if a.1 == k then (k, v) :: t else a :: alUpsert t k v

/-- Removal of a key's binding, as a JS `Map.delete` / key-store `removeKey`. -/
def alRemove {β : Type} : List (String × β) → String → List (String × β)
  | [], _ => []
  | a :: t, k => if a.1 == k then alRemove t k else a :: alRemove t k

theorem alGet_upsert_self {β : Type} (l : List (String × β)) (k : String) (v : β) :
    alGet (alUpsert l k v) k = some v := by
  induction l with
  | nil => simp [alGet, alUpsert]
  | cons a t ih =>
    by_cases h : (a.1 == k) = true
    · simp [alGet, alUpsert, h]
    · simp [alGet, alUpsert, h, ih]

theorem alGet_upsert_ne {β : Type} (l : List (String × β)) (k k' : String) (v : β)
    (hne : k' ≠ k) : alGet (alUpsert l k v) k' = alGet l k' := by
  have hkk : (k == k') = false := by
    simp only [beq_eq_false_iff_ne, ne_eq]
    exact fun h => hne h.symm
  induction l with
  | nil => simp [alGet, alUpsert, hkk]
  | cons a t ih =>
    by_cases h : (a.1 == k) = true
    · have ha : (a.1 == k') = false := by
        have : a.1 = k := by simpa using h
        simp only [this, beq_eq_false_iff_ne, ne_eq]
        exact fun hk => hne hk.symm
      simp [alGet, alUpsert, h, hkk, ha]
    · by_cases h' : (a.1 == k') = true
      · simp [alGet, alUpsert, h, h']
      · simp [alGet, alUpsert, h, h', ih]

theorem alGet_remove_self {β : Type} (l : List (String × β)) (k : String) :
    alGet (alRemove l k) k = none := by
  induction l with
  | nil => simp [alGet, alRemove]
  | cons a t ih =>
    by_cases h : (a.1 == k) = true
    · simp [alRemove, h, ih]
    · simp [alGet, alRemove, h, ih]

theorem alGet_remove_ne {β : Type} (l : List (String × β)) (k k' : String)
    (hne : k' ≠ k) : alGet (alRemove l k) k' = alGet l k' := by
  induction l with
  | nil => rfl
  | cons a t ih =>
    by_cases h : (a.1 == k) = true
    · have ha : (a.1 == k') = false := by
        have : a.1 = k := by simpa using h
        simp only [this, beq_eq_false_iff_ne, ne_eq]
        exact fun hk => hne hk.symm
      simp [alGet, alRemove, h, ha, ih]
    · by_cases h' : (a.1 == k') = true
      · simp [alGet, alRemove, h, h']
      · simp [alGet, alRemove, h, h', ih]

theorem alGet_isSome_upsert {β : Type} (l : List (String × β)) (k k' : String)
    (v : β) (h : (alGet l k).isSome) : (alGet (alUpsert l k' v) k).isSome := by
  by_cases hk : k = k'
  · subst hk
    rw [alGet_upsert_self]
    rfl
  · rw [alGet_upsert_ne _ _ _ _ hk]
    exact h

theorem alGet_isSome_iff_mem {β : Type} (l : List (String × β)) (k : String) :
    (alGet l k).isSome = true ↔ ∃ v, (k, v) ∈ l := by
  induction l with
  | nil => simp [alGet]
  | cons a t ih =>
    by_cases h : (a.1 == k) = true
    · have ha : a.1 = k := by simpa using h
      constructor
      · intro _
        exact ⟨a.2, by simp [← ha]⟩
      · intro _
        simp [alGet, h]
    · have hne : a.1 ≠ k := by simpa using h
      have hrw : alGet (a :: t) k = alGet t k := by simp [alGet, h]
      rw [hrw, ih]
      constructor
      · rintro ⟨v, hv⟩
        exact ⟨v, List.mem_cons_of_mem _ hv⟩
      · rintro ⟨v, hv⟩
        rcases List.mem_cons.mp hv with h1 | h1
        · exact absurd (congrArg Prod.fst h1.symm) hne
        · exact ⟨v, h1⟩

/-- JS `s.startsWith(pre)`, viewed through the character lists of the two
strings. -/
def jsStartsWith (s pre : String) : Bool :=
  pre.toList.isPrefixOf s.toList

/-- JS `s.replace(pat, '')` for a string pattern: removes the first
occurrence of `pat`, returns `s` unchanged when `pat` does not occur
(character-list version). -/
def removeFirstL (pat : List Char) : List Char → List Char
  | [] => []
  | c :: rest =>
    if pat.isPrefixOf (c :: rest) then (c :: rest).drop pat.length
    else c :: removeFirstL pat rest

/-- JS `s.replace(pat, '')` on strings. -/
def jsReplaceEmpty (s pat : String) : String :=
  String.mk (removeFirstL pat.toList s.toList)

theorem isPrefixOf_self_append (l t : List Char) :
    l.isPrefixOf (l ++ t) = true := by
  induction l with
  | nil => simp [List.isPrefixOf]
  | cons c cs ih => simp [List.isPrefixOf, ih]

/-- When the first occurrence of a nonempty pattern in `short ++ pat` is the
final one (no occurrence begins strictly before position `short.length`),
removing the first occurrence yields exactly `short`. -/
theorem removeFirstL_append_self (pat : List Char) (hne : pat ≠ []) (short : List Char)
    (h : ∀ i, i < short.length → pat.isPrefixOf ((short ++ pat).drop i) = false) :
    removeFirstL pat (short ++ pat) = short := by
  induction short with
  | nil =>
    match pat, hne with
    | c :: ps, _ =>
      have hp : (c :: ps).isPrefixOf (c :: ps) = true := by
        have := isPrefixOf_self_append (c :: ps) []
        rwa [List.append_nil] at this
      simp only [List.nil_append, removeFirstL, hp, if_true]
      exact List.drop_length _
  | cons c t ih =>
    have h0 := h 0 (by simp)
    simp only [List.cons_append, List.drop_zero] at h0
    rw [List.cons_append, removeFirstL, if_neg (by simp [h0])]
    congr 1
    exact ih (fun i hi => by
      have := h (i + 1) (by simpa using Nat.succ_lt_succ hi)
      simpa using this)

/-- `FinalExecutionStatus` of an outcome: a string enum (`NotStarted`,
`Started`) or an object carrying a `SuccessValue` or a `Failure` field. -/
inductive ExecutionStatus
  | SuccessValue (value : String)
  | Failure
  | NotStarted
  | Started
deriving DecidableEq, Repr

/-- The JS guard `executionResult.status.SuccessValue !== undefined` from
`ManagedTransaction.signAndSend`: true exactly on a `SuccessValue` status. -/
def statusHasSuccessValue : ExecutionStatus → Bool
  | ExecutionStatus.SuccessValue _ => true
  | _ => false

structure FinalExecutionOutcome where
  status : ExecutionStatus
deriving DecidableEq, Repr

/-- An error thrown by the RPC layer while submitting a signed transaction. -/
inductive TxError
  | sendFailure (msg : String)
deriving DecidableEq, Repr

/-- Transaction actions (the kinds the claims exercise). -/
inductive TxAction
  | createAccount
  | transfer (amount : Nat)
  | deleteAccount (beneficiaryId : String)
deriving DecidableEq, Repr

/-- `ManagedTransaction`: a transaction builder (sender, receiver, ordered
action list) together with the private `delete` intent flag. -/
structure ManagedTransaction where
  senderId : String
  receiverId : String
  actions : List TxAction
  delete : Bool
deriving DecidableEq, Repr

/-- The network-scoped key store, restricted to the single network id the
manager uses (`this.networkId` is fixed per manager). -/
abbrev KeyStore := List (String × KeyPair)

/-- Mutable state owned by an `AccountManager`: its key-store view and the
`accountsCreated` tracking table (account id ↦ short name). -/
structure ManagerState where
  keyStore : KeyStore
  accountsCreated : List (String × String)
deriving DecidableEq, Repr

/-- `AccountManager.getKey`. -/
def AccountManager.getKey (st : ManagerState) (accountId : String) : Option KeyPair :=
  alGet st.keyStore accountId

/-- `AccountManager.setKey` with an explicit key (the `keyPair ?? fromRandom()`
choice is resolved by the caller supplying the stored key). -/
def AccountManager.setKey (st : ManagerState) (accountId : String) (kp : KeyPair) :
    ManagerState :=
  { st with keyStore := alUpsert st.keyStore accountId kp }

/-- `AccountManager.deleteKey` / `removeKey`: drops the account's key from
the store. -/
def AccountManager.deleteKey (st : ManagerState) (accountId : String) : ManagerState :=
  { st with keyStore := alRemove st.keyStore accountId }

/-- `AccountManager.addAccountCreated`: records the account in the tracking
table under the value `account.replace('.' + sender, '')`. -/
def AccountManager.addAccountCreated (st : ManagerState) (account sender : String) :
    ManagerState :=
  let short := jsReplaceEmpty account ("." ++ sender)
  { st with accountsCreated := alUpsert st.accountsCreated account short }

/-- `AccountManager.executeTransaction(tx, keyPair?)`.  The submission
`account.signAndSendTransaction(...)` is an external RPC call whose result —
a resolved outcome or a thrown error — is the `send` parameter.  The source
is straight-line `await` code with no `try`/`finally`: the restoration
`setKey(account.accountId, oldKey)` runs only when the submission resolved
and a previous key existed (`if (oldKey)`). -/
def AccountManager.executeTransaction (send : Except TxError FinalExecutionOutcome)
    (tx : ManagedTransaction) (keyPair : Option KeyPair) (st : ManagerState) :
    Except TxError FinalExecutionOutcome × ManagerState :=
  let oldKey : Option KeyPair :=
    match keyPair with
    | some _ => AccountManager.getKey st tx.senderId
    | none => none
  let st1 : ManagerState :=
    match keyPair with
    | some kp => AccountManager.setKey st tx.senderId kp
    | none => st
  match send with
  | Except.error e => (Except.error e, st1)
  | Except.ok outcome =>
    match oldKey with
    | some old => (Except.ok outcome, AccountManager.setKey st1 tx.senderId old)
    | none => (Except.ok outcome, st1)

/-- Modelled from the spec: the base `Transaction` builder (in
`src/runtime/transaction.ts`, not under `src/`) appends one action per
chainable call (spec §4.2). -/
def Transaction.appendAction (t : ManagedTransaction) (a : TxAction) : ManagedTransaction :=
  { t with actions := t.actions ++ [a] }

/-- `ManagedTransaction.createAccount`: registers the receiver with the
owning manager via `addAccountCreated`, then delegates to the base builder. -/
def ManagedTransaction.createAccount (st : ManagerState) (t : ManagedTransaction) :
    ManagerState × ManagedTransaction :=
  (AccountManager.addAccountCreated st t.receiverId t.senderId,
   Transaction.appendAction t TxAction.createAccount)

/-- `ManagedTransaction.deleteAccount`: sets the `delete` flag, then
delegates to the base builder. -/
def ManagedTransaction.deleteAccount (t : ManagedTransaction) (beneficiaryId : String) :
    ManagedTransaction :=
  Transaction.appendAction { t with delete := true } (TxAction.deleteAccount beneficiaryId)

/-- `ManagedTransaction.signAndSend(keyPair?)`: delegate to the manager's
`executeTransaction`; afterwards, only when the status carries a
`SuccessValue` and the `delete` flag is set, remove the receiver's key. -/
def ManagedTransaction.signAndSend (send : Except TxError FinalExecutionOutcome)
    (t : ManagedTransaction) (keyPair : Option KeyPair) (st : ManagerState) :
    Except TxError FinalExecutionOutcome × ManagerState :=
  let r := AccountManager.executeTransaction send t keyPair st
  match r.1 with
  | Except.error e => (Except.error e, r.2)
  | Except.ok outcome =>
    if statusHasSuccessValue outcome.status && t.delete then
      (Except.ok outcome, AccountManager.deleteKey r.2 t.receiverId)
    else (Except.ok outcome, r.2)

/-- The concrete `AccountManager` variants. -/
inductive ManagerVariant
  | sandbox
  | testnet
  | testnetSubaccount
deriving DecidableEq, Repr

/-- `AccountManager.create`: dispatch on `near.config.network`, then return
the selected variant after its `init()`.  I/O performed by each variant's
`init` is abstracted as the effect lists `sandboxInit` / `testnetInit`
supplied by the environment; the default branch throws before any manager is
constructed, so it performs none. -/
def AccountManager.create {α : Type} (network : String)
    (sandboxInit testnetInit : List α) : Except String ManagerVariant × List α :=
  if network == "sandbox" then (Except.ok ManagerVariant.sandbox, sandboxInit)
  else if network == "testnet" then (Except.ok ManagerVariant.testnet, testnetInit)
  else
    (Except.error ("Bad network id: " ++ network ++ " expected \"testnet\" or \"sandbox\""), [])

/-- `cleanup()` per variant: the base-class method has an empty body and
neither `TestnetManager` nor `SandboxManager` overrides it;
`TestnetSubaccountManager.cleanup` runs `this.getAccount(id).delete(realRoot)`
for every id tracked in `accountsCreated`.  The on-chain deletions are
returned as an effect list of (account id, beneficiary) pairs. -/
def AccountManager.cleanup (v : ManagerVariant) (realRootId : String) (st : ManagerState) :
    ManagerState × List (String × String) :=
  match v with
  | ManagerVariant.testnetSubaccount =>
    (st, st.accountsCreated.map (fun p => (p.1, realRootId)))
  | _ => (st, [])

/-- Modelled from the spec: `randomAccountId(prefix, suffix)` (in
`src/utils.ts`, not under `src/`) synthesizes a fresh random account id
beginning with the given prefix (spec §4.1 step 5); the random portion is
abstracted as a numeric seed. -/
def randomAccountId (pre suf : String) (seed : Nat) : String :=
  pre ++ toString seed ++ suf

/-- `findAccountsWithPrefix`: every stored id that starts with the prefix,
or a singleton fresh random id with that prefix when none matches. -/
def findAccountsWithPrefix (pre : String) (accounts : List String) (seed : Nat) :
    List String :=
  let paths := accounts.filter (fun f => jsStartsWith f pre)
  if paths.length > 0 then paths else [randomAccountId pre "" seed]

/-- Result of `TestnetManager.initRootAccount` in the no-root-configured
branch: the chosen root id and the (account, beneficiary) deletions launched
for the remaining candidates. -/
structure RootDiscovery where
  rootAccount : String
  deletions : List (String × String)
deriving DecidableEq, Repr

/-- The discovery core of `TestnetManager.initRootAccount` (no root account
configured, the caller file recognised as a script, name prefix `pre`
already derived): `accounts.shift()` takes the first candidate as root and
every remaining candidate is deleted with the root as beneficiary.  The
empty arm is unreachable because `findAccountsWithPrefix` never returns an
empty list (`shift()!` asserts this in the source). -/
def TestnetManager.initRootAccount (pre : String) (accounts : List String) (seed : Nat) :
    RootDiscovery :=
  match findAccountsWithPrefix pre accounts seed with
  | [] => { rootAccount := "", deletions := [] }
  | accountId :: rest =>
    { rootAccount := accountId, deletions := rest.map (fun acc => (acc, accountId)) }

/-- On-chain account state visible through the provider: account id ↦
available balance (yoctoNEAR).  Absence means the account does not exist. -/
abbrev Chain := List (String × Nat)

/-- `provider.accountExists`. -/
def chainExists (c : Chain) (id : String) : Bool := (alGet c id).isSome

/-- The `available` field of `provider.account_balance`. -/
def chainAvailable (c : Chain) (id : String) : Nat := (alGet c id).getD 0

/-- Modelled from the spec: `toYocto(n)` (in `src/utils.ts`, not under
`src/`) converts whole NEAR tokens to yoctoNEAR (1 token = 10^24 yocto). -/
def toYocto (tokens : Nat) : Nat := tokens * 10 ^ 24

/-- Modelled from the spec: the testnet account-creation helper service
(`UrlAccountCreator`, an external HTTP collaborator, spec §6) registers the
account and funds it; its funding behaviour is a documented precondition
(spec §9), abstracted as the `grant` amount. -/
def serviceCreateAccount (grant : Nat) (c : Chain) (id : String) : Chain :=
  alUpsert c id grant

/-- Modelled from the spec: `Account.delete(beneficiaryId)` (in
`src/account/account.ts`, not under `src/`) deletes the account and remits
its remaining balance to the beneficiary (spec §4.3 and glossary). -/
def accountDelete (c : Chain) (id beneficiary : String) : Chain :=
  let bal := chainAvailable c id
  let c1 := alRemove c id
  alUpsert c1 beneficiary (chainAvailable c1 beneficiary + bal)

/-- State touched by `TestnetManager.init`: the chain (via the provider and
the creator service) and the manager's key store. -/
structure TestnetState where
  chain : Chain
  keyStore : KeyStore
deriving DecidableEq, Repr

/-- `AccountManager.getRootKey`: the stored root key, or a freshly generated
one persisted by `setKey` when absent. -/
def AccountManager.getRootKey (ks : KeyStore) (rootId : String) (freshKey : KeyPair) :
    KeyPair × KeyStore :=
  match alGet ks rootId with
  | some kp => (kp, ks)
  | none => (freshKey, alUpsert ks rootId freshKey)

/-- `TestnetManager.addFunds`: store the root key under a random temporary
id, create that temporary account through the creator service (funded with
`grant`), then delete it with the root as beneficiary, sweeping its balance
to the root. -/
def TestnetManager.addFunds (grant : Nat) (rootId temporaryId : String)
    (freshKey : KeyPair) (st : TestnetState) : TestnetState :=
  let kks := AccountManager.getRootKey st.keyStore rootId freshKey
  let ks2 := alUpsert kks.2 temporaryId kks.1
  let c1 := serviceCreateAccount grant st.chain temporaryId
  let c2 := accountDelete c1 temporaryId rootId
  { chain := c2, keyStore := ks2 }

/-- `TestnetManager.createAndFundAccount` (the body of `TestnetManager.init`
after `initRootAccount` resolved `rootId`): create the root through the
creator service when it does not yet exist on-chain, then top it up via
`addFunds` when its available balance is below `toYocto 1000`. -/
def TestnetManager.createAndFundAccount (grant : Nat) (rootId temporaryId : String)
    (freshKey freshKey2 : KeyPair) (st : TestnetState) : TestnetState :=
  let st1 : TestnetState :=
    if chainExists st.chain rootId then st
    else
      let kks := AccountManager.getRootKey st.keyStore rootId freshKey
      let ks2 := alUpsert kks.2 rootId kks.1
      { chain := serviceCreateAccount grant st.chain rootId, keyStore := ks2 }
  if chainAvailable st1.chain rootId < toYocto 1000 then
    TestnetManager.addFunds grant rootId temporaryId freshKey2 st1
  else st1

/-- The operations of the manager hierarchy that touch a manager's state,
gathered as an operation type (for the tracking-table growth invariant). -/
inductive ManagerOp
  | addAccountCreated (account sender : String)
  | createAccountAction (t : ManagedTransaction)
  | signAndSend (send : Except TxError FinalExecutionOutcome)
      (t : ManagedTransaction) (keyPair : Option KeyPair)
  | executeTransaction (send : Except TxError FinalExecutionOutcome)
      (t : ManagedTransaction) (keyPair : Option KeyPair)
  | cleanup (v : ManagerVariant) (realRootId : String)
  | setKey (accountId : String) (kp : KeyPair)
  | deleteKey (accountId : String)

/-- Effect of each manager operation on the manager's state. -/
def ManagerOp.apply : ManagerOp → ManagerState → ManagerState
  | ManagerOp.addAccountCreated a s, st => AccountManager.addAccountCreated st a s
  | ManagerOp.createAccountAction t, st => (ManagedTransaction.createAccount st t).1
  | ManagerOp.signAndSend send t kp, st => (ManagedTransaction.signAndSend send t kp st).2
  | ManagerOp.executeTransaction send t kp, st =>
      (AccountManager.executeTransaction send t kp st).2
  | ManagerOp.cleanup v r, st => (AccountManager.cleanup v r st).1
  | ManagerOp.setKey a kp, st => AccountManager.setKey st a kp
  | ManagerOp.deleteKey a, st => AccountManager.deleteKey st a

theorem executeTransaction_result (send : Except TxError FinalExecutionOutcome)
    (t : ManagedTransaction) (kp : Option KeyPair) (st : ManagerState) :
    (AccountManager.executeTransaction send t kp st).1 = send := by
  unfold AccountManager.executeTransaction
  cases kp with
  | none => cases send <;> rfl
  | some k =>
    cases send with
    | error e => rfl
    | ok o => cases AccountManager.getKey st t.senderId <;> rfl

theorem executeTransaction_accountsCreated (send : Except TxError FinalExecutionOutcome)
    (t : ManagedTransaction) (kp : Option KeyPair) (st : ManagerState) :
    (AccountManager.executeTransaction send t kp st).2.accountsCreated =
      st.accountsCreated := by
  unfold AccountManager.executeTransaction
  cases kp with
  | none => cases send <;> rfl
  | some k =>
    cases send with
    | error e => rfl
    | ok o => cases AccountManager.getKey st t.senderId <;> rfl

theorem signAndSend_eq (send : Except TxError FinalExecutionOutcome)
    (t : ManagedTransaction) (kp : Option KeyPair) (st : ManagerState) :
    ManagedTransaction.signAndSend send t kp st =
      match send with
      | Except.error e =>
          (Except.error e, (AccountManager.executeTransaction send t kp st).2)
      | Except.ok o =>
        if statusHasSuccessValue o.status && t.delete then
          (Except.ok o,
            AccountManager.deleteKey (AccountManager.executeTransaction send t kp st).2
              t.receiverId)
        else (Except.ok o, (AccountManager.executeTransaction send t kp st).2) := by
  unfold ManagedTransaction.signAndSend
  simp only [executeTransaction_result]

theorem signAndSend_accountsCreated (send : Except TxError FinalExecutionOutcome)
    (t : ManagedTransaction) (kp : Option KeyPair) (st : ManagerState) :
    (ManagedTransaction.signAndSend send t kp st).2.accountsCreated =
      st.accountsCreated := by
  rw [signAndSend_eq]
  cases send with
  | error e => simpa using executeTransaction_accountsCreated _ t kp st
  | ok o =>
    by_cases hc : (statusHasSuccessValue o.status && t.delete) = true
    · simp only [hc, if_true]
      simpa [AccountManager.deleteKey] using executeTransaction_accountsCreated _ t kp st
    · simp only [hc, if_false]
      simpa using executeTransaction_accountsCreated _ t kp st

theorem cleanup_state_unchanged (v : ManagerVariant) (realRootId : String)
    (st : ManagerState) : (AccountManager.cleanup v realRootId st).1 = st := by
  cases v <;> rfl

/-- C1 (evidence of the code defect): `executeTransaction` fails to restore
the previously stored key when the signed-transaction submission throws.
The source is sequential `await` code with no `try`/`finally`, so the
restoration `setKey(account.accountId, oldKey)` is skipped on the throw
path.  At the concrete input below, sender `alice` holds key ⟨1⟩ before the
call and a temporary key ⟨2⟩ is supplied; the submission throws, and after
the call the stored key is still the temporary ⟨2⟩, not the restored ⟨1⟩. -/
theorem executeTransaction_throw_keeps_temporary_key :
    AccountManager.getKey
      (AccountManager.executeTransaction (Except.error (TxError.sendFailure "boom"))
        { senderId := "alice", receiverId := "bob", actions := [], delete := false }
        (some { secret := 2 })
        { keyStore := [("alice", { secret := 1 })], accountsCreated := [] }).2 "alice" =
      some { secret := 2 } ∧
    (some { secret := 2 } : Option KeyPair) ≠ some { secret := 1 } := by
  constructor
  · decide
  · decide

/-- C9: when `executeTransaction` is called with a temporary key for a
sender that has no previously stored key, `oldKey` stays null, the
restoration branch never runs, and on both exit paths the temporary key is
the stored key afterwards: the sender's stored key goes from absent to the
temporary key. -/
theorem executeTransaction_no_prior_key_keeps_temporary
    (send : Except TxError FinalExecutionOutcome) (tx : ManagedTransaction)
    (kp : KeyPair) (st : ManagerState)
    (h : AccountManager.getKey st tx.senderId = none) :
    AccountManager.getKey
      (AccountManager.executeTransaction send tx (some kp) st).2 tx.senderId =
      some kp := by
  unfold AccountManager.executeTransaction
  cases send with
  | error e =>
    simp only [h]
    simp [AccountManager.getKey, AccountManager.setKey, alGet_upsert_self]
  | ok o =>
    simp only [h]
    simp [AccountManager.getKey, AccountManager.setKey, alGet_upsert_self]

theorem executeTransaction_no_prior_key_keeps_temporary_witness :
    AccountManager.getKey { keyStore := [], accountsCreated := [] } "alice" = none ∧
    AccountManager.getKey
      (AccountManager.executeTransaction
        (Except.ok { status := ExecutionStatus.SuccessValue "" })
        { senderId := "alice", receiverId := "bob", actions := [], delete := false }
        (some { secret := 7 }) { keyStore := [], accountsCreated := [] }).2 "alice" =
      some { secret := 7 } :=
  ⟨by decide,
   executeTransaction_no_prior_key_keeps_temporary _ _ _ _ (by decide)⟩

/-- C5: adding a create-account action through the managed builder registers
the receiver id in the owning manager's `accountsCreated` table at once: the
table maps the receiver id immediately after the builder call (to the short
name with the sender suffix replaced away), and `signAndSend` never changes
the table, so the registration is independent of whether the send is ever
invoked or succeeds. -/
theorem managedCreateAccount_registers_receiver (st : ManagerState)
    (t : ManagedTransaction) :
    (alGet (ManagedTransaction.createAccount st t).1.accountsCreated t.receiverId =
      some (jsReplaceEmpty t.receiverId ("." ++ t.senderId))) ∧
    (∀ send t2 kp st2,
      (ManagedTransaction.signAndSend send t2 kp st2).2.accountsCreated =
        st2.accountsCreated) := by
  constructor
  · simp [ManagedTransaction.createAccount, AccountManager.addAccountCreated,
      alGet_upsert_self]
  · intro send t2 kp st2
    exact signAndSend_accountsCreated send t2 kp st2

/-- C6 counterexample: `addAccountCreated` computes the short name with the
JS first-occurrence `String.replace`, not by stripping the final suffix.
`"x.b.y.b"` is of the claimed form `short.senderId` with `short = "x.b.y"`
and `senderId = "b"`, yet the table records `"x.y.b"` (the first occurrence
of `".b"` removed), not the suffix-stripped `"x.b.y"`. -/
theorem addAccountCreated_not_suffix_stripping :
    ("x.b.y.b" = "x.b.y" ++ "." ++ "b") ∧
    alGet (AccountManager.addAccountCreated
        { keyStore := [], accountsCreated := [] } "x.b.y.b" "b").accountsCreated
      "x.b.y.b" = some "x.y.b" ∧
    alGet (AccountManager.addAccountCreated
        { keyStore := [], accountsCreated := [] } "x.b.y.b" "b").accountsCreated
      "x.b.y.b" ≠ some "x.b.y" := by
  refine ⟨by decide, by decide, by decide⟩

/-- C6 amended: for an accountId of the form `short ++ "." ++ senderId` in
which the pattern `"." ++ senderId` does not occur strictly before the final
suffix position, `addAccountCreated` maps the accountId to the
suffix-stripped short name (the claim as stated fails when the pattern
occurs earlier, see the counterexample). -/
theorem addAccountCreated_strips_suffix (st : ManagerState) (shortName sender : String)
    (h : ∀ i, i < shortName.toList.length →
      ('.' :: sender.toList).isPrefixOf
        ((shortName.toList ++ '.' :: sender.toList).drop i) = false) :
    alGet (AccountManager.addAccountCreated st (shortName ++ "." ++ sender)
        sender).accountsCreated (shortName ++ "." ++ sender) = some shortName := by
  simp only [AccountManager.addAccountCreated]
  rw [alGet_upsert_self]
  congr 1
  unfold jsReplaceEmpty
  have hpat : ("." ++ sender).toList = '.' :: sender.toList := by
    simp [String.toList, String.data_append]
  have hs : (shortName ++ "." ++ sender).toList =
      shortName.toList ++ '.' :: sender.toList := by
    simp [String.toList, String.data_append]
  rw [hpat, hs, removeFirstL_append_self _ (by simp) _ h]
  rfl

theorem addAccountCreated_strips_suffix_witness :
    (∀ i, i < "frodo".toList.length →
      ('.' :: "near".toList).isPrefixOf
        (("frodo".toList ++ '.' :: "near".toList).drop i) = false) ∧
    alGet (AccountManager.addAccountCreated { keyStore := [], accountsCreated := [] }
        ("frodo" ++ "." ++ "near") "near").accountsCreated
      ("frodo" ++ "." ++ "near") = some "frodo" :=
  ⟨by decide, addAccountCreated_strips_suffix _ "frodo" "near" (by decide)⟩

/-- C3: `signAndSend` removes the receiver's key from the key store exactly
when the transaction carried a delete-account intent and the returned
outcome's status carries a `SuccessValue`.  When the outcome's status is not
a success, when no delete intent was set, or when the submission throws, the
manager state is exactly the one left by `executeTransaction` — no key is
removed, so the receiver's key remains in the store as it stood after
execution. -/
theorem signAndSend_removes_receiver_key_iff
    (send : Except TxError FinalExecutionOutcome) (t : ManagedTransaction)
    (kp : Option KeyPair) (st : ManagerState) :
    (∀ o, send = Except.ok o → statusHasSuccessValue o.status = true →
      t.delete = true →
      alGet (ManagedTransaction.signAndSend send t kp st).2.keyStore t.receiverId =
        none) ∧
    (∀ o, send = Except.ok o →
      (statusHasSuccessValue o.status = false ∨ t.delete = false) →
      (ManagedTransaction.signAndSend send t kp st).2 =
        (AccountManager.executeTransaction send t kp st).2) ∧
    (∀ e, send = Except.error e →
      (ManagedTransaction.signAndSend send t kp st).2 =
        (AccountManager.executeTransaction send t kp st).2) := by
  refine ⟨?_, ?_, ?_⟩
  · intro o hs hsucc hdel
    subst hs
    rw [signAndSend_eq]
    simp only [hsucc, hdel, Bool.and_self, if_true]
    exact alGet_remove_self _ _
  · intro o hs hor
    subst hs
    rw [signAndSend_eq]
    have hc : (statusHasSuccessValue o.status && t.delete) = false := by
      rcases hor with h | h <;> simp [h]
    simp [hc]
  · intro e hs
    subst hs
    rw [signAndSend_eq]

theorem signAndSend_removes_receiver_key_iff_witness :
    alGet (ManagedTransaction.signAndSend
        (Except.ok { status := ExecutionStatus.SuccessValue "" })
        { senderId := "alice", receiverId := "bob",
          actions := [TxAction.deleteAccount "alice"], delete := true }
        none
        { keyStore := [("bob", { secret := 3 })], accountsCreated := [] }).2.keyStore
      "bob" = none :=
  (signAndSend_removes_receiver_key_iff _ _ _ _).1 _ rfl (by decide) rfl

/-- C7: `cleanup()` on the base manager — inherited unchanged by
`TestnetManager` and `SandboxManager` — issues no deletion and leaves the
manager state unchanged; only `TestnetSubaccountManager.cleanup` issues
deletions: its state is also unchanged, every issued deletion names the real
root as beneficiary, and an account id is deleted precisely when it is
tracked in `accountsCreated`. -/
theorem cleanup_deletes_only_for_subaccount_manager (v : ManagerVariant)
    (realRootId : String) (st : ManagerState) :
    (v ≠ ManagerVariant.testnetSubaccount →
      AccountManager.cleanup v realRootId st = (st, [])) ∧
    (AccountManager.cleanup ManagerVariant.testnetSubaccount realRootId st).1 = st ∧
    (∀ e ∈ (AccountManager.cleanup ManagerVariant.testnetSubaccount realRootId st).2,
      e.2 = realRootId) ∧
    (∀ id, (alGet st.accountsCreated id).isSome = true ↔
      (id, realRootId) ∈
        (AccountManager.cleanup ManagerVariant.testnetSubaccount realRootId st).2) := by
  refine ⟨?_, rfl, ?_, ?_⟩
  · intro hv
    cases v with
    | sandbox => rfl
    | testnet => rfl
    | testnetSubaccount => exact absurd rfl hv
  · intro e he
    simp only [AccountManager.cleanup, List.mem_map] at he
    obtain ⟨p, _, hp⟩ := he
    rw [← hp]
  · intro id
    rw [alGet_isSome_iff_mem]
    simp only [AccountManager.cleanup, List.mem_map]
    constructor
    · rintro ⟨v', hv⟩
      exact ⟨(id, v'), hv, rfl⟩
    · rintro ⟨⟨a, b⟩, hmem, heq⟩
      have ha : a = id := (Prod.mk.injEq _ _ _ _).mp heq |>.1
      subst ha
      exact ⟨b, hmem⟩

theorem cleanup_deletes_only_for_subaccount_manager_witness :
    AccountManager.cleanup ManagerVariant.sandbox "root"
      { keyStore := [], accountsCreated := [("a.root", "a")] } =
      ({ keyStore := [], accountsCreated := [("a.root", "a")] }, []) ∧
    ("a.root", "root") ∈ (AccountManager.cleanup ManagerVariant.testnetSubaccount "root"
      { keyStore := [], accountsCreated := [("a.root", "a")] }).2 :=
  ⟨(cleanup_deletes_only_for_subaccount_manager ManagerVariant.sandbox "root"
      { keyStore := [], accountsCreated := [("a.root", "a")] }).1 (by decide),
   ((cleanup_deletes_only_for_subaccount_manager ManagerVariant.sandbox "root"
      { keyStore := [], accountsCreated := [("a.root", "a")] }).2.2.2 "a.root").mp
     (by decide)⟩

/-- C8: `AccountManager.create` on any network name other than `sandbox` and
`testnet` throws a configuration error whose message names the bad network
value and performs no I/O (empty effect trace — no manager constructed, no
`init` run); on `sandbox` and `testnet` it returns the corresponding variant
together with that variant's `init` effects. -/
theorem accountManager_create_dispatch {α : Type} (network : String)
    (sandboxInit testnetInit : List α)
    (h1 : network ≠ "sandbox") (h2 : network ≠ "testnet") :
    AccountManager.create network sandboxInit testnetInit =
      (Except.error
        ("Bad network id: " ++ network ++ " expected \"testnet\" or \"sandbox\""),
       ([] : List α)) ∧
    (∃ pre post, pre ++ network.toList ++ post =
      ("Bad network id: " ++ network ++
        " expected \"testnet\" or \"sandbox\"").toList) ∧
    AccountManager.create "sandbox" sandboxInit testnetInit =
      (Except.ok ManagerVariant.sandbox, sandboxInit) ∧
    AccountManager.create "testnet" sandboxInit testnetInit =
      (Except.ok ManagerVariant.testnet, testnetInit) := by
  have e1 : (network == "sandbox") = false := beq_eq_false_iff_ne.mpr h1
  have e2 : (network == "testnet") = false := beq_eq_false_iff_ne.mpr h2
  refine ⟨?_, ?_, ?_, ?_⟩
  · simp [AccountManager.create, e1, e2]
  · refine ⟨("Bad network id: ").toList,
      (" expected \"testnet\" or \"sandbox\"").toList, ?_⟩
    simp [String.toList, String.data_append]
  · simp [AccountManager.create]
  · simp [AccountManager.create]

theorem accountManager_create_dispatch_witness :
    AccountManager.create "betanet" ([] : List Nat) [] =
      (Except.error
        ("Bad network id: " ++ "betanet" ++ " expected \"testnet\" or \"sandbox\""),
       []) :=
  (accountManager_create_dispatch "betanet" [] [] (by decide) (by decide)).1

/-- C4: root-account discovery with no root configured: when at least one
stored testnet id starts with the derived prefix, the first such id in the
store's returned order becomes the root and every other matching id is
scheduled for deletion with the chosen root as beneficiary; when no stored
id matches, a fresh random id carrying the prefix becomes the root and no
deletion is scheduled. -/
theorem initRootAccount_discovery (pre : String) (accounts : List String)
    (seed : Nat) :
    (∀ a rest, accounts.filter (fun f => jsStartsWith f pre) = a :: rest →
      TestnetManager.initRootAccount pre accounts seed =
        { rootAccount := a, deletions := rest.map (fun acc => (acc, a)) }) ∧
    (accounts.filter (fun f => jsStartsWith f pre) = [] →
      TestnetManager.initRootAccount pre accounts seed =
        { rootAccount := randomAccountId pre "" seed, deletions := [] } ∧
      jsStartsWith (randomAccountId pre "" seed) pre = true) := by
  constructor
  · intro a rest hf
    simp [TestnetManager.initRootAccount, findAccountsWithPrefix, hf]
  · intro hf
    constructor
    · simp [TestnetManager.initRootAccount, findAccountsWithPrefix, hf]
    · have hdata : (randomAccountId pre "" seed).toList =
          pre.toList ++ (toString seed).toList := by
        simp [randomAccountId, String.toList, String.data_append]
      unfold jsStartsWith
      rw [hdata]
      exact isPrefixOf_self_append _ _

theorem initRootAccount_discovery_witness :
    TestnetManager.initRootAccount "foo" ["foo1", "foo2", "bar"] 0 =
      { rootAccount := "foo1", deletions := [("foo2", "foo1")] } ∧
    TestnetManager.initRootAccount "foo" ["bar"] 0 =
      { rootAccount := randomAccountId "foo" "" 0, deletions := [] } :=
  ⟨(initRootAccount_discovery "foo" ["foo1", "foo2", "bar"] 0).1 "foo1" ["foo2"]
      (by decide),
   ((initRootAccount_discovery "foo" ["bar"] 0).2 (by decide)).1⟩

theorem addFunds_root_at_least_grant (grant : Nat) (rootId temporaryId : String)
    (freshKey : KeyPair) (st : TestnetState) :
    chainExists (TestnetManager.addFunds grant rootId temporaryId
        freshKey st).chain rootId = true ∧
    grant ≤ chainAvailable (TestnetManager.addFunds grant rootId temporaryId
        freshKey st).chain rootId := by
  unfold TestnetManager.addFunds accountDelete serviceCreateAccount
  constructor
  · simp [chainExists, alGet_upsert_self]
  · have h1 : chainAvailable (alUpsert st.chain temporaryId grant) temporaryId =
        grant := by
      simp [chainAvailable, alGet_upsert_self]
    simp only [chainAvailable, alGet_upsert_self, Option.getD_some, h1]
    exact Nat.le_add_left grant _

/-- C2: after the `TestnetManager.init` body (`createAndFundAccount`, run
once `initRootAccount` has resolved the root id), the root account exists
on-chain and its available balance is at least the `toYocto 1000` top-up
threshold — under the documented collaborator precondition that the
account-creation (faucet) service funds a fresh account with at least that
threshold, since the top-up sweep is performed once and its size is exactly
one service grant. -/
theorem createAndFundAccount_root_exists_and_funded (grant : Nat)
    (rootId temporaryId : String) (freshKey freshKey2 : KeyPair)
    (st : TestnetState) (hgrant : toYocto 1000 ≤ grant) :
    chainExists (TestnetManager.createAndFundAccount grant rootId temporaryId
        freshKey freshKey2 st).chain rootId = true ∧
    toYocto 1000 ≤ chainAvailable (TestnetManager.createAndFundAccount grant
        rootId temporaryId freshKey freshKey2 st).chain rootId := by
  unfold TestnetManager.createAndFundAccount
  by_cases hex : chainExists st.chain rootId = true
  · rw [if_pos hex]
    by_cases hlt : chainAvailable st.chain rootId < toYocto 1000
    · rw [if_pos hlt]
      have h := addFunds_root_at_least_grant grant rootId temporaryId freshKey2 st
      exact ⟨h.1, le_trans hgrant h.2⟩
    · rw [if_neg hlt]
      exact ⟨hex, Nat.le_of_not_lt hlt⟩
  · rw [if_neg hex]
    have hav : chainAvailable
        (serviceCreateAccount grant st.chain rootId) rootId = grant := by
      simp [serviceCreateAccount, chainAvailable, alGet_upsert_self]
    have hnot : ¬ (chainAvailable
        (serviceCreateAccount grant st.chain rootId) rootId < toYocto 1000) := by
      rw [hav]
      exact Nat.not_lt.mpr hgrant
    rw [if_neg hnot]
    constructor
    · simp [chainExists, serviceCreateAccount, alGet_upsert_self]
    · rw [hav]
      exact hgrant

theorem createAndFundAccount_root_exists_and_funded_witness :
    toYocto 1000 ≤ toYocto 1000 ∧
    (chainExists (TestnetManager.createAndFundAccount (toYocto 1000) "root" "temp"
        { secret := 0 } { secret := 1 }
        { chain := [], keyStore := [] }).chain "root" = true ∧
     toYocto 1000 ≤ chainAvailable (TestnetManager.createAndFundAccount
        (toYocto 1000) "root" "temp" { secret := 0 } { secret := 1 }
        { chain := [], keyStore := [] }).chain "root") :=
  ⟨Nat.le_refl _,
   createAndFundAccount_root_exists_and_funded (toYocto 1000) "root" "temp"
     { secret := 0 } { secret := 1 } { chain := [], keyStore := [] }
     (Nat.le_refl _)⟩

/-- C10: the `accountsCreated` tracking table only ever grows: for every
manager-state operation of every variant — including every variant's
`cleanup`, which deletes tracked accounts on-chain but not from the table —
an account id tracked before the operation is still tracked after it. -/
theorem accountsCreated_only_grows (op : ManagerOp) (st : ManagerState)
    (id : String) (h : (alGet st.accountsCreated id).isSome = true) :
    (alGet (ManagerOp.apply op st).accountsCreated id).isSome = true := by
  cases op with
  | addAccountCreated a s =>
    simp only [ManagerOp.apply, AccountManager.addAccountCreated]
    exact alGet_isSome_upsert _ _ _ _ h
  | createAccountAction t =>
    simp only [ManagerOp.apply, ManagedTransaction.createAccount,
      AccountManager.addAccountCreated]
    exact alGet_isSome_upsert _ _ _ _ h
  | signAndSend send t kp =>
    simp only [ManagerOp.apply]
    rw [signAndSend_accountsCreated]
    exact h
  | executeTransaction send t kp =>
    simp only [ManagerOp.apply]
    rw [executeTransaction_accountsCreated]
    exact h
  | cleanup v r =>
    simp only [ManagerOp.apply]
    rw [cleanup_state_unchanged]
    exact h
  | setKey a kp =>
    simp only [ManagerOp.apply, AccountManager.setKey]
    exact h
  | deleteKey a =>
    simp only [ManagerOp.apply, AccountManager.deleteKey]
    exact h

theorem accountsCreated_only_grows_witness :
    (alGet ([("a.r", "a")] : List (String × String)) "a.r").isSome = true ∧
    (alGet (ManagerOp.apply (ManagerOp.cleanup ManagerVariant.testnetSubaccount "r")
        { keyStore := [], accountsCreated := [("a.r", "a")] }).accountsCreated
      "a.r").isSome = true :=
  ⟨by decide,
   accountsCreated_only_grows (ManagerOp.cleanup ManagerVariant.testnetSubaccount "r")
     { keyStore := [], accountsCreated := [("a.r", "a")] } "a.r" (by decide)⟩
